import Mathlib

/-!
Shallow embedding of the DailyDutyNotifier rotation engine.

Sources:
* `src/DailyDutyNotifier/index.js` — daily assignment flow
  (`selectFirstDutyMember`, `createRotationList`, `updateInitialDutyData`).
* `src/unnamed/part_000` — interaction handlers: the exclusion-rank
  reselection flow (`verifySlackRequest`, `selectNewDutyMember`,
  `updateDynamoDBForReselection`) and the fixed-rotation reselection flow
  (`updateDutyDataOnReselect`, the rotation-list step inside `handler`).
* `src/unnamed/part_001` — the identifier-rotation reselection flow
  (`selectNextMemberByIdRotation`).

Modelling conventions: DynamoDB items are association lists of `Member`
records; the singleton `DutyState` item is a record of optional fields
(mirroring the duck-typed item shapes); JavaScript string truthiness is
modelled explicitly (`""`, `null` and `undefined` are falsy); `localeCompare`
is modelled as the lexicographic order on `String`; the stable in-place
`Array.prototype.sort` is modelled by `List.mergeSort` with the boolean
comparator `cmp a b ≤ 0`; numbers are `Int`; HMAC-SHA256 is an abstract
parameter `hmacHex : String → String → String`.
-/

namespace DailyDuty

/-- A row of the DutyMembers table, after `getAllMembers` normalised
`dutyCount` to a number (`Number(item.dutyCount) || 0`). -/
structure Member where
  memberId : String
  memberName : Option String := none
  dutyCount : Int := 0
  displayOrder : Option Int := none
deriving Repr, DecidableEq

/-- The singleton DutyState item.  All fields are optional: the stored item
may be in pointer form (`lastAssignedMemberId`/`lastAssignmentDate`), in list
form (`assignmentDate`/`rotationList`/`currentListIndex`/
`currentAssignedMemberId`), or absent. -/
structure DutyState where
  assignmentDate : Option String := none
  rotationList : Option (List String) := none
  currentListIndex : Option Int := none
  currentAssignedMemberId : Option String := none
  lastAssignedMemberId : Option String := none
deriving Repr, DecidableEq

/-- JavaScript truthiness of an optional string field: `undefined`, `null`
and `""` are falsy. -/
def strTruthy : Option String → Bool
  | some s => s ≠ ""
  | none => false

/-- The `orderA !== orderB` test of the comparators, with a missing
`displayOrder` read as `Infinity` (`Infinity !== Infinity` is `false`). -/
def dispOrderEq : Option Int → Option Int → Bool
  | some x, some y => x = y
  | none, none => true
  | _, _ => false

/-- The `orderA - orderB < 0` outcome of the comparators, with a missing
`displayOrder` read as `Infinity`. -/
def dispOrderLt : Option Int → Option Int → Bool
  | some x, some y => x < y
  | some _, none => true
  | _, _ => false

/-- Lexicographic comparison of character lists: the model of
`localeCompare(...) ≤ 0` on the underlying characters. -/
def charListLe : List Char → List Char → Bool
  | [], _ => true
  | _ :: _, [] => false
  | a :: as, b :: bs => if a < b then true else if b < a then false else charListLe as bs

/-- String comparison `a.localeCompare(b) ≤ 0`, modelled as lexicographic
order on the characters. -/
def strLe (a b : String) : Bool := charListLe a.data b.data

/-- The comparator of `selectFirstDutyMember` and `createRotationList`
(`src/DailyDutyNotifier/index.js` lines 123-129 and 138-144), read as
`cmp a b ≤ 0`: dutyCount ascending, then displayOrder ascending with missing
treated as `Infinity`, then memberId ascending (`localeCompare`). -/
def firstCmpLe (a b : Member) : Bool :=
  if a.dutyCount ≠ b.dutyCount then decide (a.dutyCount < b.dutyCount)
  else if dispOrderEq a.displayOrder b.displayOrder then strLe a.memberId b.memberId
  else dispOrderLt a.displayOrder b.displayOrder

/-- The excluded id computed by `selectFirstDutyMember`
(`src/DailyDutyNotifier/index.js` lines 110-112): the previous snapshot's
`currentAssignedMemberId` when the snapshot has a truthy `assignmentDate`
that differs from today's date string, nothing otherwise. -/
def yesterdayAssignedId (st : Option DutyState) (todayStr : String) : Option String :=
  match st with
  | some s =>
    match s.assignmentDate with
    | some d => if d ≠ "" ∧ d ≠ todayStr then s.currentAssignedMemberId else none
    | none => none
  | none => none

/-- The filtered candidate list of `selectFirstDutyMember` before the
exhaustion fallback (`src/DailyDutyNotifier/index.js` line 115). -/
def firstFiltered (members : List Member) (st : Option DutyState) (todayStr : String) :
    List Member :=
  match yesterdayAssignedId st todayStr with
  | some y => members.filter (fun m => m.memberId != y)
  | none => members

/-- The candidate set built by `selectFirstDutyMember`
(`src/DailyDutyNotifier/index.js` lines 108-120): the filtered list, with
the full directory restored when the exclusion empties it. -/
def firstCandidates (members : List Member) (st : Option DutyState) (todayStr : String) :
    List Member :=
  if (firstFiltered members st todayStr).isEmpty then members
  else firstFiltered members st todayStr

/-- The SelectInitial operation, `selectFirstDutyMember`
(`src/DailyDutyNotifier/index.js` lines 108-133): sort the candidates and
return the first. -/
def selectFirstDutyMember (members : List Member) (st : Option DutyState) (todayStr : String) :
    Option Member :=
  ((firstCandidates members st todayStr).mergeSort firstCmpLe).head?

/-- The frozen rotation list, `createRotationList`
(`src/DailyDutyNotifier/index.js` lines 136-149): the directory sorted by the
three-key comparator, projected to member ids. -/
def createRotationList (members : List Member) : List String :=
  (members.mergeSort firstCmpLe).map Member.memberId

/-- The comparator of `selectNewDutyMember` (`src/unnamed/part_000` lines
135-140), read as `cmp a b ≤ 0`: dutyCount ascending then memberId
ascending.  It has no displayOrder key. -/
def newCmpLe (a b : Member) : Bool :=
  if a.dutyCount ≠ b.dutyCount then decide (a.dutyCount < b.dutyCount)
  else strLe a.memberId b.memberId

/-- The candidate chain of `selectNewDutyMember` (`src/unnamed/part_000`
lines 114-127): exclude both the just-vacated assignee and the recorded last
assignee; if empty, exclude only the just-vacated one; if still empty, use
the full directory. -/
def newCandidates (members : List Member) (currentMemberId : String)
    (lastAssignedId : Option String) : List Member :=
  let excluded : Member → Bool := fun m =>
    m.memberId == currentMemberId || some m.memberId == lastAssignedId
  let c1 := members.filter (fun m => ! excluded m)
  if c1.isEmpty then
    let c2 := members.filter (fun m => m.memberId != currentMemberId)
    if c2.isEmpty then members else c2
  else c1

/-- The exclusion-rank SelectNext operation, `selectNewDutyMember`
(`src/unnamed/part_000` lines 109-145). -/
def selectNewDutyMember (members : List Member) (currentMemberId : String)
    (lastAssignedId : Option String) : Option Member :=
  if members.isEmpty then none
  else if (newCandidates members currentMemberId lastAssignedId).isEmpty then none
  else ((newCandidates members currentMemberId lastAssignedId).mergeSort newCmpLe).head?

/-- Modelled from the spec: the exclusion-rank SelectNext as the spec words
it — the same candidate chain, but ranked with the same three-key sort as
SelectInitial.  Used only to compare the spec's ranking against the code's
(`selectNewDutyMember` uses `newCmpLe`, which has no displayOrder key). -/
def selectNewDutyMemberSpec (members : List Member) (currentMemberId : String)
    (lastAssignedId : Option String) : Option Member :=
  if members.isEmpty then none
  else if (newCandidates members currentMemberId lastAssignedId).isEmpty then none
  else ((newCandidates members currentMemberId lastAssignedId).mergeSort firstCmpLe).head?

/-- The comparator of `selectNextMemberByIdRotation` (`src/unnamed/part_001`
lines 116-118): memberId ascending only. -/
def idCmpLe (a b : Member) : Bool := strLe a.memberId b.memberId

/-- The live directory sorted by memberId, the fixed rotation order of the
identifier-rotation policy (`src/unnamed/part_001` lines 116-118). -/
def idSorted (members : List Member) : List Member := members.mergeSort idCmpLe

/-- The identifier-rotation SelectNext operation,
`selectNextMemberByIdRotation` (`src/unnamed/part_001` lines 109-135):
directories of at most one member short-circuit; otherwise sort by memberId,
locate the triggering member (`findIndex`, `none` for `-1`) and return the
member at the next position modulo the length, falling back to the first
sorted member when the triggering member is absent. -/
def selectNextMemberByIdRotation (members : List Member) (currentMemberId : String) :
    Option Member :=
  match members with
  | [] => none
  | [m] => some m
  | _ =>
    match (idSorted members).findIdx? (fun m => m.memberId == currentMemberId) with
    | none => (idSorted members).head?
    | some currentIndex =>
      (idSorted members)[(currentIndex + 1) % (idSorted members).length]?

/-- One identifier-rotation hop as a total function on members, wrapping
`selectNextMemberByIdRotation`.  The fallback to the input member only fires
when the selection returns nothing, which never happens for a member of a
non-empty directory. -/
def selStep (members : List Member) (m : Member) : Member :=
  (selectNextMemberByIdRotation members m.memberId).getD m

/-- The member directory, the content of the DutyMembers table. -/
abbrev Directory := List Member

/-- DynamoDB `UpdateCommand` with `ADD dutyCount :delta` on key `memberId`:
adds `delta` to the stored count, creating the item with count `delta` when
no item with that key exists. -/
def adjustCount (dir : Directory) (id : String) (delta : Int) : Directory :=
  if dir.any (fun m => m.memberId == id) then
    dir.map (fun m =>
      if m.memberId = id then { m with dutyCount := m.dutyCount + delta } else m)
  else
    dir ++ [{ memberId := id, dutyCount := delta }]

/-- The daily assignment transaction, `updateInitialDutyData`
(`src/DailyDutyNotifier/index.js` lines 152-205): increment the selected
member's count and overwrite the DutyState item with the frozen list, the
index of the selected member in it, and today's date.  When the selected
member is missing from the rotation list (`indexOf` is `-1`) the count is
still incremented but the state write is skipped. -/
def updateInitialDutyData (selected : Member) (rotationList : List String)
    (todayStr : String) (dir : Directory) (stored : DutyState) : Directory × DutyState :=
  match rotationList.findIdx? (fun x => x == selected.memberId) with
  | none => (adjustCount dir selected.memberId 1, stored)
  | some currentIndex =>
    (adjustCount dir selected.memberId 1,
     { assignmentDate := some todayStr
       rotationList := some rotationList
       currentListIndex := some (currentIndex : Int)
       currentAssignedMemberId := some selected.memberId
       lastAssignedMemberId := none })

/-- Outcome of the fixed-rotation reselection transaction. -/
inductive ReselectOutcome
  | applied
  | invalidRotationState
deriving Repr, DecidableEq

/-- Truthiness-and-emptiness test on the stored rotation list, from
`!rotationList || rotationList.length === 0`. -/
def listInvalid : Option (List String) → Bool
  | none => true
  | some l => l.isEmpty

/-- The fixed-rotation reselection transaction, `updateDutyDataOnReselect`
(`src/unnamed/part_000` lines 528-576).  When the state has no truthy
`assignmentDate` or no non-empty `rotationList` the function throws before
any DynamoDB command, modelled by returning the inputs unchanged with the
`invalidRotationState` outcome.  Otherwise it decrements the original
member, increments the new member, and overwrites the state preserving the
day's date and frozen list. -/
def updateDutyDataOnReselect (originalMemberId newMemberId : String) (newIndex : Int)
    (currentState : DutyState) (dir : Directory) (stored : DutyState) :
    ReselectOutcome × Directory × DutyState :=
  if ! strTruthy currentState.assignmentDate || listInvalid currentState.rotationList then
    (.invalidRotationState, dir, stored)
  else
    (.applied,
     adjustCount (adjustCount dir originalMemberId (-1)) newMemberId 1,
     { assignmentDate := currentState.assignmentDate
       rotationList := currentState.rotationList
       currentListIndex := some newIndex
       currentAssignedMemberId := some newMemberId
       lastAssignedMemberId := none })

/-- The pointer-form reselection transaction, `updateDynamoDBForReselection`
(`src/unnamed/part_000` lines 148-192, `src/unnamed/part_001` lines
138-182): decrement the original member, increment the new member, and
`SET lastAssignedMemberId` on the state item, leaving its other fields as
they are.  The decrement has no lower-bound guard. -/
def updateDynamoDBForReselection (originalMemberId : String) (newMember : Member)
    (dir : Directory) (stored : DutyState) : Directory × DutyState :=
  (adjustCount (adjustCount dir originalMemberId (-1)) newMember.memberId 1,
   { stored with lastAssignedMemberId := some newMember.memberId })

/-- Outcome of the fixed-rotation handler's reselection step. -/
inductive RotationStepOutcome
  | ok
  | invalidRotationData
  | onlyOneMember
  | invalidRotationState
deriving Repr, DecidableEq

/-- The reselection step of the fixed-rotation handler
(`src/unnamed/part_000` lines 741-769): guard the stored rotation data,
refuse when the frozen list has fewer than two members, advance the cursor
by one modulo the list length, read the new assignee from the frozen list,
and run `updateDutyDataOnReselect`.  The error branches answer Slack without
touching stores, modelled by returning the inputs unchanged. -/
def handlerFixedRotationReselect (buttonMemberId : String) (dir : Directory)
    (currentState : DutyState) : RotationStepOutcome × Directory × DutyState :=
  match currentState.rotationList, currentState.currentListIndex with
  | some rl, some i =>
    if rl.isEmpty || decide (i < 0) then (.invalidRotationData, dir, currentState)
    else if rl.length ≤ 1 then (.onlyOneMember, dir, currentState)
    else
      let nextIndex : Int := (i + 1) % (rl.length : Int)
      let newMemberId := rl.getD nextIndex.toNat ""
      match updateDutyDataOnReselect buttonMemberId newMemberId nextIndex
          currentState dir currentState with
      | (.applied, dir2, st2) => (.ok, dir2, st2)
      | (.invalidRotationState, dir2, st2) => (.invalidRotationState, dir2, st2)
  | _, _ => (.invalidRotationData, dir, currentState)

/-- One full reselection round of the fixed-rotation flow: the button value
carries the currently displayed assignee, which the flow keeps equal to the
state's `currentAssignedMemberId`. -/
def reselectRound (p : Directory × DutyState) : Directory × DutyState :=
  let r := handlerFixedRotationReselect (p.2.currentAssignedMemberId.getD "") p.1 p.2
  (r.2.1, r.2.2)

/-- Leading decimal digits of a character list; `none` when the first
character is not a digit (`parseInt` returning `NaN`). -/
def parseDigits (cs : List Char) : Option Nat :=
  match cs with
  | [] => none
  | c :: _ =>
    if c.isDigit then
      some ((cs.takeWhile Char.isDigit).foldl (fun n ch => 10 * n + (ch.toNat - 48)) 0)
    else none

/-- JavaScript `parseInt(s, 10)`: skip leading whitespace, read an optional
sign and the leading run of decimal digits; `NaN` is modelled as `none`. -/
def parseIntJS (s : String) : Option Int :=
  let cs := s.toList.dropWhile (fun c => c == ' ' || c == '\t' || c == '\n' || c == '\r')
  match cs with
  | '-' :: rest => (parseDigits rest).map (fun n => -(n : Int))
  | '+' :: rest => (parseDigits rest).map (fun n => (n : Int))
  | rest => (parseDigits rest).map (fun n => (n : Int))

/-- An inbound interaction request as the handlers see it: the two Slack
headers (first truthy of the two spellings) and the raw body. -/
structure SlackEvent where
  signature : Option String := none
  timestamp : Option String := none
  body : Option String := none
deriving Repr, DecidableEq

/-- The signature recomputation and comparison of `verifySlackRequest`
(`src/unnamed/part_000` lines 78-105): recompute the `v0=`-prefixed
hex HMAC-SHA256 of `v0:{timestamp}:{body}`, reject on a UTF-8 byte-length
mismatch, then compare content (`crypto.timingSafeEqual` on equal-length
buffers is equality). -/
def signatureMatches (hmacHex : String → String → String) (secret ts body sig : String) :
    Bool :=
  if sig.utf8ByteSize ≠ ("v0=" ++ hmacHex secret ("v0:" ++ ts ++ ":" ++ body)).utf8ByteSize
  then false
  else sig == "v0=" ++ hmacHex secret ("v0:" ++ ts ++ ":" ++ body)

/-- The request authenticator, `verifySlackRequest` (`src/unnamed/part_000`
lines 58-106, identical in `src/unnamed/part_001` lines 58-106): reject when
signature, timestamp, body or signing secret is missing (JS-falsy); reject
when the timestamp parses to a number strictly below `now - 300` seconds
(an unparseable timestamp compares as `NaN` and is not rejected here); then
compare signatures. -/
def verifySlackRequest (hmacHex : String → String → String) (nowSec : Int)
    (signingSecret : Option String) (ev : SlackEvent) : Bool :=
  match ev.signature, ev.timestamp, ev.body, signingSecret with
  | some sig, some ts, some body, some secret =>
    if sig = "" ∨ ts = "" ∨ body = "" ∨ secret = "" then false
    else
      let fiveMinutesAgo := nowSec - 300
      let stale :=
        match parseIntJS ts with
        | some k => decide (k < fiveMinutesAgo)
        | none => false
      if stale then false
      else signatureMatches hmacHex secret ts body sig
  | _, _, _, _ => false

/-- The authentication gate at the top of each interaction handler
(`src/unnamed/part_000` lines 302-308): when verification fails the handler
returns 403 immediately, before the payload is parsed and before any store
is read or written; the rest of the handler is abstracted as a continuation
over the stores. -/
def handlerAuthGate (hmacHex : String → String → String) (nowSec : Int)
    (signingSecret : Option String) (ev : SlackEvent) (dir : Directory) (stored : DutyState)
    (rest : Directory → DutyState → Nat × Directory × DutyState) :
    Nat × Directory × DutyState :=
  if verifySlackRequest hmacHex nowSec signingSecret ev then rest dir stored
  else (403, dir, stored)

/-- Total duty count over the directory. -/
def sumCounts (dir : Directory) : Int := (dir.map Member.dutyCount).sum

/-!  Order-theoretic facts about the comparators. -/

/-- The displayOrder key as an element of `WithTop Int`, missing read as
`Infinity`. -/
def dispVal : Option Int → WithTop Int
  | some x => (x : WithTop Int)
  | none => ⊤

theorem charListLe_trans : ∀ (a b c : List Char),
    charListLe a b = true → charListLe b c = true → charListLe a c = true
  | [], _, _, _, _ => rfl
  | _ :: _, [], _, hab, _ => by simp [charListLe] at hab
  | _ :: _, _ :: _, [], _, hbc => by simp [charListLe] at hbc
  | x :: xs, y :: ys, z :: zs, hab, hbc => by
    simp only [charListLe] at hab hbc ⊢
    by_cases h1 : x < y
    · by_cases h2 : y < z
      · simp [h1.trans h2]
      · by_cases h3 : z < y
        · simp [if_neg h2, if_pos h3] at hbc
        · have hyz : y = z := le_antisymm (le_of_not_lt h3) (le_of_not_lt h2)
          simp [lt_of_lt_of_le h1 (le_of_eq hyz)]
    · by_cases h4 : y < x
      · simp [if_neg h1, if_pos h4] at hab
      · have hxy : x = y := le_antisymm (le_of_not_lt h4) (le_of_not_lt h1)
        by_cases h2 : y < z
        · simp [lt_of_le_of_lt (le_of_eq hxy) h2]
        · by_cases h3 : z < y
          · simp [if_neg h2, if_pos h3] at hbc
          · have hyz : y = z := le_antisymm (le_of_not_lt h3) (le_of_not_lt h2)
            have hxz : ¬ x < z := by rw [hxy, hyz]; exact lt_irrefl z
            have hzx : ¬ z < x := by rw [hxy, hyz]; exact lt_irrefl z
            simp only [if_neg h1, if_neg h4] at hab
            simp only [if_neg h2, if_neg h3] at hbc
            simp only [if_neg hxz, if_neg hzx]
            exact charListLe_trans xs ys zs hab hbc

theorem charListLe_total : ∀ (a b : List Char), charListLe a b || charListLe b a
  | [], _ => by simp [charListLe]
  | _ :: _, [] => by simp [charListLe]
  | x :: xs, y :: ys => by
    rcases lt_trichotomy x y with h | h | h
    · simp [charListLe, h]
    · subst h
      simpa [charListLe, lt_irrefl] using charListLe_total xs ys
    · simp [charListLe, h, lt_asymm h]

theorem charListLe_antisymm : ∀ (a b : List Char),
    charListLe a b = true → charListLe b a = true → a = b
  | [], [], _, _ => rfl
  | [], _ :: _, _, hba => by simp [charListLe] at hba
  | _ :: _, [], hab, _ => by simp [charListLe] at hab
  | x :: xs, y :: ys, hab, hba => by
    simp only [charListLe] at hab hba
    rcases lt_trichotomy x y with h | h | h
    · simp [lt_asymm h, if_pos h] at hba
    · subst h
      simp only [lt_irrefl, if_neg (lt_irrefl x), if_false] at hab hba
      exact congrArg (x :: ·) (charListLe_antisymm xs ys hab hba)
    · simp [lt_asymm h, if_pos h] at hab

theorem strLe_trans (a b c : String) (hab : strLe a b = true) (hbc : strLe b c = true) :
    strLe a c = true :=
  charListLe_trans a.data b.data c.data hab hbc

theorem strLe_total (a b : String) : strLe a b || strLe b a :=
  charListLe_total a.data b.data

theorem strLe_antisymm (a b : String) (hab : strLe a b = true) (hba : strLe b a = true) :
    a = b := by
  have h := charListLe_antisymm a.data b.data hab hba
  cases a; cases b
  exact congrArg String.mk h

theorem dispOrderEq_iff (a b : Option Int) :
    dispOrderEq a b = true ↔ dispVal a = dispVal b := by
  cases a <;> cases b <;> simp [dispOrderEq, dispVal]

theorem dispOrderLt_iff (a b : Option Int) :
    dispOrderLt a b = true ↔ dispVal a < dispVal b := by
  cases a <;> cases b <;>
    simp [dispOrderLt, dispVal, WithTop.coe_lt_top, WithTop.coe_lt_coe]

theorem firstCmpLe_iff (a b : Member) :
    firstCmpLe a b = true ↔
      a.dutyCount < b.dutyCount ∨
        (a.dutyCount = b.dutyCount ∧
          (dispVal a.displayOrder < dispVal b.displayOrder ∨
            (dispVal a.displayOrder = dispVal b.displayOrder ∧
              strLe a.memberId b.memberId = true))) := by
  unfold firstCmpLe
  by_cases h : a.dutyCount = b.dutyCount
  · by_cases h2 : dispOrderEq a.displayOrder b.displayOrder = true
    · have h2' := (dispOrderEq_iff _ _).mp h2
      simp [h, h2, h2']
    · have h2' : ¬ dispVal a.displayOrder = dispVal b.displayOrder := by
        intro hc; exact h2 ((dispOrderEq_iff _ _).mpr hc)
      simp [h, h2, dispOrderLt_iff, h2']
  · have h' : ¬ (a.dutyCount < b.dutyCount ∧ b.dutyCount < a.dutyCount) := by omega
    simp only [if_pos (by exact h), decide_eq_true_eq]
    constructor
    · intro hlt; exact Or.inl hlt
    · rintro (hlt | ⟨he, _⟩)
      · exact hlt
      · exact absurd he h

theorem firstCmpLe_trans (a b c : Member) (hab : firstCmpLe a b) (hbc : firstCmpLe b c) :
    firstCmpLe a c := by
  rw [firstCmpLe_iff] at hab hbc ⊢
  rcases hab with h1 | ⟨e1, h1⟩ <;> rcases hbc with h2 | ⟨e2, h2⟩
  · exact Or.inl (h1.trans h2)
  · exact Or.inl (e2 ▸ h1)
  · exact Or.inl (e1 ▸ h2)
  · refine Or.inr ⟨e1.trans e2, ?_⟩
    rcases h1 with g1 | ⟨f1, s1⟩ <;> rcases h2 with g2 | ⟨f2, s2⟩
    · exact Or.inl (g1.trans g2)
    · exact Or.inl (f2 ▸ g1)
    · exact Or.inl (f1 ▸ g2)
    · exact Or.inr ⟨f1.trans f2, strLe_trans _ _ _ s1 s2⟩

theorem firstCmpLe_total (a b : Member) : firstCmpLe a b || firstCmpLe b a := by
  rw [Bool.or_eq_true, firstCmpLe_iff, firstCmpLe_iff]
  rcases lt_trichotomy a.dutyCount b.dutyCount with h | h | h
  · exact Or.inl (Or.inl h)
  · rcases lt_trichotomy (dispVal a.displayOrder) (dispVal b.displayOrder) with g | g | g
    · exact Or.inl (Or.inr ⟨h, Or.inl g⟩)
    · rcases (Bool.or_eq_true _ _).mp (strLe_total a.memberId b.memberId) with s | s
      · exact Or.inl (Or.inr ⟨h, Or.inr ⟨g, s⟩⟩)
      · exact Or.inr (Or.inr ⟨h.symm, Or.inr ⟨g.symm, s⟩⟩)
    · exact Or.inr (Or.inr ⟨h.symm, Or.inl g⟩)
  · exact Or.inr (Or.inl h)

theorem firstCmpLe_antisymm (a b : Member) (hab : firstCmpLe a b) (hba : firstCmpLe b a) :
    a.memberId = b.memberId := by
  rw [firstCmpLe_iff] at hab hba
  rcases hab with h1 | ⟨e1, h1⟩ <;> rcases hba with h2 | ⟨e2, h2⟩
  · omega
  · omega
  · omega
  · rcases h1 with g1 | ⟨f1, s1⟩ <;> rcases h2 with g2 | ⟨f2, s2⟩
    · exact absurd (g1.trans g2) (lt_irrefl _)
    · exact absurd g1 (f2 ▸ lt_irrefl _)
    · exact absurd g2 (f1 ▸ lt_irrefl _)
    · exact strLe_antisymm _ _ s1 s2

theorem newCmpLe_iff (a b : Member) :
    newCmpLe a b = true ↔
      a.dutyCount < b.dutyCount ∨
        (a.dutyCount = b.dutyCount ∧ strLe a.memberId b.memberId = true) := by
  unfold newCmpLe
  by_cases h : a.dutyCount = b.dutyCount
  · simp [h]
  · simp only [if_pos (by exact h), decide_eq_true_eq]
    constructor
    · exact Or.inl
    · rintro (hlt | ⟨he, _⟩)
      · exact hlt
      · exact absurd he h

theorem newCmpLe_trans (a b c : Member) (hab : newCmpLe a b) (hbc : newCmpLe b c) :
    newCmpLe a c := by
  rw [newCmpLe_iff] at hab hbc ⊢
  rcases hab with h1 | ⟨e1, s1⟩ <;> rcases hbc with h2 | ⟨e2, s2⟩
  · exact Or.inl (h1.trans h2)
  · exact Or.inl (e2 ▸ h1)
  · exact Or.inl (e1 ▸ h2)
  · exact Or.inr ⟨e1.trans e2, strLe_trans _ _ _ s1 s2⟩

theorem newCmpLe_total (a b : Member) : newCmpLe a b || newCmpLe b a := by
  rw [Bool.or_eq_true, newCmpLe_iff, newCmpLe_iff]
  rcases lt_trichotomy a.dutyCount b.dutyCount with h | h | h
  · exact Or.inl (Or.inl h)
  · rcases (Bool.or_eq_true _ _).mp (strLe_total a.memberId b.memberId) with s | s
    · exact Or.inl (Or.inr ⟨h, s⟩)
    · exact Or.inr (Or.inr ⟨h.symm, s⟩)
  · exact Or.inr (Or.inl h)

theorem idCmpLe_trans (a b c : Member) (hab : idCmpLe a b) (hbc : idCmpLe b c) :
    idCmpLe a c :=
  strLe_trans _ _ _ hab hbc

theorem idCmpLe_total (a b : Member) : idCmpLe a b || idCmpLe b a :=
  strLe_total _ _

/-- Head of a merge-sorted list is a least element of the original list,
for a transitive and total boolean comparator. -/
theorem head?_mergeSort_min {α : Type} (le : α → α → Bool)
    (htrans : ∀ a b c, le a b → le b c → le a c)
    (htotal : ∀ a b, le a b || le b a)
    {l : List α} {m : α} (h : (l.mergeSort le).head? = some m) :
    m ∈ l ∧ ∀ x ∈ l, le m x := by
  cases hms : l.mergeSort le with
  | nil => rw [hms] at h; simp at h
  | cons a as =>
    rw [hms] at h
    simp only [List.head?_cons, Option.some.injEq] at h
    have hmem : m ∈ l := by
      have hca : m ∈ a :: as := by rw [← h]; exact List.mem_cons_self _ _
      have : m ∈ l.mergeSort le := by rw [hms]; exact hca
      exact List.mem_mergeSort.mp this
    refine ⟨hmem, ?_⟩
    intro x hx
    have hx' : x ∈ l.mergeSort le := List.mem_mergeSort.mpr hx
    rw [hms] at hx'
    rcases List.mem_cons.mp hx' with rfl | hx2
    · rw [h]
      have := htotal m m
      simpa using this
    · rw [← h]
      have hs := List.sorted_mergeSort htrans htotal l
      rw [hms] at hs
      exact (List.pairwise_cons.mp hs).1 x hx2

/-- Members of a list whose ids are pairwise distinct are determined by
their id. -/
theorem eq_of_mem_of_id_eq {l : List Member} (h : (l.map Member.memberId).Nodup)
    {a b : Member} (ha : a ∈ l) (hb : b ∈ l) (hid : a.memberId = b.memberId) : a = b :=
  List.inj_on_of_nodup_map h ha hb hid

/-!  Facts about the candidate set of SelectInitial. -/

theorem firstCandidates_none (members : List Member) (todayStr : String) :
    firstCandidates members none todayStr = members := by
  simp [firstCandidates, firstFiltered, yesterdayAssignedId]

theorem firstFiltered_sublist (members : List Member) (st : Option DutyState)
    (todayStr : String) : (firstFiltered members st todayStr).Sublist members := by
  unfold firstFiltered
  cases yesterdayAssignedId st todayStr
  · exact List.Sublist.refl members
  · exact List.filter_sublist members

theorem firstCandidates_sublist (members : List Member) (st : Option DutyState)
    (todayStr : String) : (firstCandidates members st todayStr).Sublist members := by
  unfold firstCandidates
  split
  · exact List.Sublist.refl members
  · exact firstFiltered_sublist members st todayStr

theorem firstCandidates_ne_nil (members : List Member) (st : Option DutyState)
    (todayStr : String) (h : members ≠ []) : firstCandidates members st todayStr ≠ [] := by
  unfold firstCandidates
  split
  · exact h
  · next he => exact fun hc => he (by simp [hc])

theorem mergeSort_eq_nil_iff {α : Type} (le : α → α → Bool) (l : List α) :
    l.mergeSort le = [] ↔ l = [] := by
  constructor
  · intro h
    have := congrArg List.length h
    simp only [List.length_mergeSort, List.length_nil] at this
    exact List.length_eq_zero.mp this
  · rintro rfl
    simp

theorem selectFirst_eq_none_iff (members : List Member) (st : Option DutyState)
    (todayStr : String) :
    selectFirstDutyMember members st todayStr = none ↔
      firstCandidates members st todayStr = [] := by
  unfold selectFirstDutyMember
  rw [List.head?_eq_none_iff, mergeSort_eq_nil_iff]

theorem selectFirst_isSome (members : List Member) (st : Option DutyState)
    (todayStr : String) (h : members ≠ []) :
    ∃ m, selectFirstDutyMember members st todayStr = some m := by
  cases hs : selectFirstDutyMember members st todayStr with
  | none =>
    exact absurd ((selectFirst_eq_none_iff members st todayStr).mp hs)
      (firstCandidates_ne_nil members st todayStr h)
  | some m => exact ⟨m, rfl⟩

/-! Claim C1. -/

/-- Counterexample member for claim C1. -/
def c1mA : Member := { memberId := "A", dutyCount := 0 }

/-- Counterexample member for claim C1. -/
def c1mB : Member := { memberId := "B", dutyCount := 1 }

/-- Counterexample state for claim C1: a snapshot dated the previous day. -/
def c1st : DutyState :=
  { assignmentDate := some "2024-01-01", currentAssignedMemberId := some "A" }

/-- Claim C1 as stated is false: with a prior snapshot whose assignmentDate
`2024-01-01` differs from today `2024-01-02`, the claim predicts that no
exclusion is applied (candidate set is the full directory, so the
lowest-count member A wins), but `selectFirstDutyMember` excludes the
recorded assignee A precisely in this case and returns B. -/
theorem selectFirst_exclusion_polarity_cex :
    c1st.assignmentDate = some "2024-01-01" ∧
    ("2024-01-01" : String) ≠ "2024-01-02" ∧
    c1st.currentAssignedMemberId = some "A" ∧
    firstCandidates [c1mA, c1mB] (some c1st) "2024-01-02" = [c1mB] ∧
    ([c1mB] : List Member) ≠ [c1mA, c1mB] ∧
    selectFirstDutyMember [c1mA, c1mB] (some c1st) "2024-01-02" = some c1mB ∧
    c1mB ≠ c1mA := by
  refine ⟨rfl, by decide, rfl, by decide, by decide, ?_, by decide⟩
  simp [selectFirstDutyMember, firstCandidates, firstFiltered, yesterdayAssignedId,
    c1mA, c1mB, c1st, List.mergeSort]

/-- Claim C1 (amended): `selectFirstDutyMember` excludes the snapshot's
`currentAssignedMemberId` exactly when the snapshot has a non-empty
`assignmentDate` that DIFFERS from today's date (the state then records the
previous business day's assignee); when the state is absent, its date is
missing or empty, its date equals today, or no assignee is recorded, no
exclusion is applied; if the exclusion empties the candidate set the full
directory is used, so on a non-empty directory the operation always returns
a member. -/
theorem selectFirst_exclusion_rule (members : List Member) (s : DutyState)
    (todayStr : String) :
    (firstCandidates members none todayStr = members) ∧
    ((s.assignmentDate = none ∨ s.assignmentDate = some "" ∨
        s.assignmentDate = some todayStr ∨ s.currentAssignedMemberId = none) →
      firstCandidates members (some s) todayStr = members) ∧
    (∀ d y, s.assignmentDate = some d → d ≠ "" → d ≠ todayStr →
      s.currentAssignedMemberId = some y →
      firstCandidates members (some s) todayStr =
        (if (members.filter (fun m => m.memberId != y)).isEmpty then members
         else members.filter (fun m => m.memberId != y))) ∧
    (members ≠ [] → ∀ st : Option DutyState,
      ∃ m, selectFirstDutyMember members st todayStr = some m) := by
  refine ⟨firstCandidates_none members todayStr, ?_, ?_, ?_⟩
  · intro h
    have hy : yesterdayAssignedId (some s) todayStr = none := by
      rcases h with h | h | h | h
      · simp [yesterdayAssignedId, h]
      · simp [yesterdayAssignedId, h]
      · simp [yesterdayAssignedId, h]
      · cases hd : s.assignmentDate with
        | none => simp [yesterdayAssignedId, hd]
        | some d =>
          by_cases hc : d ≠ "" ∧ d ≠ todayStr
          · simp [yesterdayAssignedId, hd, hc, h]
          · simp [yesterdayAssignedId, hd, hc]
    simp [firstCandidates, firstFiltered, hy]
  · intro d y hd hd1 hd2 hy
    have hyid : yesterdayAssignedId (some s) todayStr = some y := by
      simp [yesterdayAssignedId, hd, hd1, hd2, hy]
    simp [firstCandidates, firstFiltered, hyid]
  · intro h st
    exact selectFirst_isSome members st todayStr h

/-- Witness for `selectFirst_exclusion_rule` at a concrete input. -/
theorem selectFirst_exclusion_rule_witness :
    (c1st.assignmentDate = some "2024-01-01" ∧ ("2024-01-01" : String) ≠ "" ∧
      ("2024-01-01" : String) ≠ "2024-01-02" ∧
      c1st.currentAssignedMemberId = some "A" ∧ ([c1mA, c1mB] : List Member) ≠ []) ∧
    firstCandidates [c1mA, c1mB] (some c1st) "2024-01-02" =
      (if (([c1mA, c1mB] : List Member).filter (fun m => m.memberId != "A")).isEmpty
        then [c1mA, c1mB]
        else ([c1mA, c1mB] : List Member).filter (fun m => m.memberId != "A")) ∧
    (∃ m, selectFirstDutyMember [c1mA, c1mB] (some c1st) "2024-01-02" = some m) :=
  ⟨⟨rfl, by decide, by decide, rfl, by decide⟩,
   (selectFirst_exclusion_rule [c1mA, c1mB] c1st "2024-01-02").2.2.1 "2024-01-01" "A"
     rfl (by decide) (by decide) rfl,
   (selectFirst_exclusion_rule [c1mA, c1mB] c1st "2024-01-02").2.2.2 (by decide)
     (some c1st)⟩

/-! Claim C7. -/

/-- Claim C7: when the recorded rotation state has no assignmentDate or no
non-empty rotationList, `updateDutyDataOnReselect` fails closed: it signals
the invalid-rotation-state condition before either counter mutation and
before the state write, leaving the directory and the stored state
unchanged. -/
theorem reselect_fails_closed (orig newId : String) (newIndex : Int)
    (currentState : DutyState) (dir : Directory) (stored : DutyState)
    (h : currentState.assignmentDate = none ∨ currentState.rotationList = none ∨
      currentState.rotationList = some []) :
    updateDutyDataOnReselect orig newId newIndex currentState dir stored
      = (ReselectOutcome.invalidRotationState, dir, stored) := by
  unfold updateDutyDataOnReselect
  rcases h with h | h | h <;> simp [h, strTruthy, listInvalid]

/-- Witness for `reselect_fails_closed` at a concrete input. -/
theorem reselect_fails_closed_witness :
    (({} : DutyState).assignmentDate = none ∨ ({} : DutyState).rotationList = none ∨
      ({} : DutyState).rotationList = some []) ∧
    updateDutyDataOnReselect "A" "B" 0 {}
        [{ memberId := "A", dutyCount := 4 }] { assignmentDate := some "keep" }
      = (ReselectOutcome.invalidRotationState,
         [{ memberId := "A", dutyCount := 4 }], { assignmentDate := some "keep" }) :=
  ⟨Or.inl rfl,
   reselect_fails_closed "A" "B" 0 {} [{ memberId := "A", dutyCount := 4 }]
     { assignmentDate := some "keep" } (Or.inl rfl)⟩

/-! Claim C3. -/

/-- Counterexample member for claim C3: tied count, later displayOrder,
earlier memberId. -/
def c3A : Member := { memberId := "A", dutyCount := 0, displayOrder := some 2 }

/-- Counterexample member for claim C3: tied count, earlier displayOrder,
later memberId. -/
def c3B : Member := { memberId := "B", dutyCount := 0, displayOrder := some 1 }

/-- Claim C3 as stated is false: on two candidates with equal dutyCount
where displayOrder prefers B but memberId prefers A, the three-key sort of
SelectInitial puts B first, yet `selectNewDutyMember` returns A — its sort
has no displayOrder key. -/
theorem selectNew_threekey_cex :
    newCandidates [c3A, c3B] "C" none = [c3A, c3B] ∧
    firstCmpLe c3B c3A = true ∧ firstCmpLe c3A c3B = false ∧
    selectNewDutyMemberSpec [c3A, c3B] "C" none = some c3B ∧
    selectNewDutyMember [c3A, c3B] "C" none = some c3A ∧
    c3A ≠ c3B := by
  refine ⟨by decide, by decide, by decide, ?_, ?_, by decide⟩ <;>
    simp [selectNewDutyMember, selectNewDutyMemberSpec, newCandidates, c3A, c3B,
      List.mergeSort, newCmpLe, firstCmpLe, dispOrderEq, dispOrderLt, strLe, charListLe]

/-- Claim C3 (amended): `selectNewDutyMember` ranks its candidate set by the
two-key order dutyCount ascending then memberId ascending — not by the
three-key sort of SelectInitial, as it has no displayOrder key — and returns
the first candidate under that order. -/
theorem selectNew_twokey_ranking (members : List Member) (currentMemberId : String)
    (lastAssignedId : Option String) (m : Member)
    (h : selectNewDutyMember members currentMemberId lastAssignedId = some m) :
    m ∈ newCandidates members currentMemberId lastAssignedId ∧
      ∀ x ∈ newCandidates members currentMemberId lastAssignedId, newCmpLe m x = true := by
  unfold selectNewDutyMember at h
  by_cases he : members.isEmpty
  · rw [if_pos he] at h
    exact absurd h (by simp)
  · rw [if_neg he] at h
    by_cases hc : (newCandidates members currentMemberId lastAssignedId).isEmpty
    · rw [if_pos hc] at h
      exact absurd h (by simp)
    · rw [if_neg hc] at h
      exact head?_mergeSort_min newCmpLe newCmpLe_trans newCmpLe_total h

/-- Witness for `selectNew_twokey_ranking` at a concrete input. -/
theorem selectNew_twokey_ranking_witness :
    selectNewDutyMember [c3A, c3B] "C" none = some c3A ∧
    (c3A ∈ newCandidates [c3A, c3B] "C" none ∧
      ∀ x ∈ newCandidates [c3A, c3B] "C" none, newCmpLe c3A x = true) := by
  have hsel : selectNewDutyMember [c3A, c3B] "C" none = some c3A := by
    simp [selectNewDutyMember, newCandidates, c3A, c3B, List.mergeSort, newCmpLe,
      strLe, charListLe]
  exact ⟨hsel, selectNew_twokey_ranking [c3A, c3B] "C" none c3A hsel⟩

/-! Claim C9. -/

/-- Every count in the directory stays non-negative after an `ADD` of a
non-negative delta. -/
theorem adjustCount_nonneg (dir : Directory) (id : String) (δ : Int) (hδ : 0 ≤ δ)
    (h : ∀ m ∈ dir, 0 ≤ m.dutyCount) : ∀ m ∈ adjustCount dir id δ, 0 ≤ m.dutyCount := by
  intro m hm
  unfold adjustCount at hm
  split at hm
  · obtain ⟨m0, hm0, rfl⟩ := List.mem_map.mp hm
    by_cases hid : m0.memberId = id
    · have := h m0 hm0
      simp only [if_pos hid]
      omega
    · simpa [if_neg hid] using h m0 hm0
  · rcases List.mem_append.mp hm with hm | hm
    · exact h m hm
    · simp only [List.mem_singleton] at hm
      subst hm
      simpa using hδ

/-- Every count stays non-negative after the `ADD dutyCount :dec` of a
reselection, provided the decremented id is present and all entries carrying
it have a positive count. -/
theorem adjustCount_dec_nonneg (dir : Directory) (id : String)
    (h : ∀ m ∈ dir, 0 ≤ m.dutyCount) (hex : ∃ w ∈ dir, w.memberId = id)
    (hpos : ∀ w ∈ dir, w.memberId = id → 1 ≤ w.dutyCount) :
    ∀ m ∈ adjustCount dir id (-1), 0 ≤ m.dutyCount := by
  intro m hm
  have hany : dir.any (fun m => m.memberId == id) = true := by
    obtain ⟨w, hw, hwid⟩ := hex
    exact List.any_eq_true.mpr ⟨w, hw, by simp [hwid]⟩
  unfold adjustCount at hm
  rw [hany] at hm
  simp only [if_true] at hm
  obtain ⟨m0, hm0, rfl⟩ := List.mem_map.mp hm
  by_cases hid : m0.memberId = id
  · have := hpos m0 hm0 hid
    simp only [if_pos hid]
    omega
  · simpa [if_neg hid] using h m0 hm0

/-- Claim C9 as stated is false: the reselection decrement has no lower
bound.  On a directory where every count is non-negative and the replaced
assignee A has count 0 (for instance when the button payload repeats an
already-replaced assignee, which the handler accepts), the reselection
transaction drives A's count to -1. -/
theorem reselect_negative_count_cex :
    (∀ m ∈ ([{ memberId := "A", dutyCount := 0 },
        { memberId := "B", dutyCount := 0 }] : Directory), 0 ≤ m.dutyCount) ∧
    (updateDynamoDBForReselection "A" { memberId := "B", dutyCount := 0 }
        [{ memberId := "A", dutyCount := 0 }, { memberId := "B", dutyCount := 0 }] {}).1
      = [{ memberId := "A", dutyCount := -1 }, { memberId := "B", dutyCount := 1 }] ∧
    ¬ (0 : Int) ≤ (-1 : Int) := by
  decide

/-- Claim C9 (amended): both transactions mutate counts only through ±1
`ADD`s.  The daily assignment preserves non-negativity unconditionally; a
reselection preserves it only under the guard — absent from the code — that
the decremented id is present in the directory with a positive count:
without that guard the decrement can produce -1, as the counterexample
shows. -/
theorem counts_nonneg_guard (selected : Member) (rotationList : List String)
    (todayStr : String) (dir : Directory) (stored : DutyState) (orig : String)
    (nm : Member) (newId : String) (newIndex : Int) (currentState : DutyState)
    (h0 : ∀ m ∈ dir, 0 ≤ m.dutyCount) :
    (∀ m ∈ (updateInitialDutyData selected rotationList todayStr dir stored).1,
      0 ≤ m.dutyCount) ∧
    ((∃ w ∈ dir, w.memberId = orig) → (∀ w ∈ dir, w.memberId = orig → 1 ≤ w.dutyCount) →
      (∀ m ∈ (updateDynamoDBForReselection orig nm dir stored).1, 0 ≤ m.dutyCount) ∧
      (∀ m ∈ (updateDutyDataOnReselect orig newId newIndex currentState dir stored).2.1,
        0 ≤ m.dutyCount)) := by
  constructor
  · unfold updateInitialDutyData
    cases rotationList.findIdx? (fun x => x == selected.memberId) with
    | none => exact adjustCount_nonneg dir selected.memberId 1 (by omega) h0
    | some i => exact adjustCount_nonneg dir selected.memberId 1 (by omega) h0
  · intro hex hpos
    have hdec := adjustCount_dec_nonneg dir orig h0 hex hpos
    constructor
    · exact adjustCount_nonneg _ nm.memberId 1 (by omega) hdec
    · unfold updateDutyDataOnReselect
      split
      · simpa using h0
      · simpa using adjustCount_nonneg _ newId 1 (by omega) hdec

/-- Witness for `counts_nonneg_guard` at a concrete input. -/
theorem counts_nonneg_guard_witness :
    (∀ m ∈ ([{ memberId := "A", dutyCount := 1 },
        { memberId := "B", dutyCount := 0 }] : Directory), 0 ≤ m.dutyCount) ∧
    (∀ m ∈ (updateDynamoDBForReselection "A" { memberId := "B", dutyCount := 0 }
        [{ memberId := "A", dutyCount := 1 }, { memberId := "B", dutyCount := 0 }] {}).1,
      0 ≤ m.dutyCount) := by
  have h := counts_nonneg_guard { memberId := "A", dutyCount := 1 } [] "d"
    [{ memberId := "A", dutyCount := 1 }, { memberId := "B", dutyCount := 0 }] {} "A"
    { memberId := "B", dutyCount := 0 } "B" 0 {} (by decide)
  exact ⟨by decide, (h.2 (by decide) (by decide)).1⟩

/-! Claim C6. -/

theorem map_memberId_adjustCount (dir : Directory) (id : String) (δ : Int) :
    (adjustCount dir id δ).map Member.memberId = dir.map Member.memberId ∨
      ((adjustCount dir id δ).map Member.memberId = dir.map Member.memberId ++ [id] ∧
        id ∉ dir.map Member.memberId) := by
  unfold adjustCount
  split
  · left
    rw [List.map_map]
    apply List.map_congr_left
    intro a _
    by_cases ha : a.memberId = id <;> simp [ha]
  · next hany =>
    right
    refine ⟨by simp, ?_⟩
    intro hid
    obtain ⟨m, hm, hmid⟩ := List.mem_map.mp hid
    exact hany (List.any_eq_true.mpr ⟨m, hm, by simp [hmid]⟩)

theorem nodup_adjustCount (dir : Directory) (id : String) (δ : Int)
    (h : (dir.map Member.memberId).Nodup) :
    ((adjustCount dir id δ).map Member.memberId).Nodup := by
  rcases map_memberId_adjustCount dir id δ with he | ⟨he, hid⟩
  · rw [he]; exact h
  · rw [he, List.nodup_append]
    refine ⟨h, List.nodup_singleton id, ?_⟩
    intro a ha hc
    rw [List.mem_singleton] at hc
    exact hid (hc ▸ ha)

theorem sum_map_update (dir : Directory) (id : String) (δ : Int)
    (h : (dir.map Member.memberId).Nodup) (hmem : id ∈ dir.map Member.memberId) :
    sumCounts (dir.map (fun m =>
      if m.memberId = id then { m with dutyCount := m.dutyCount + δ } else m))
      = sumCounts dir + δ := by
  induction dir with
  | nil => simp at hmem
  | cons a rest ih =>
    simp only [List.map_cons, List.nodup_cons] at h
    by_cases ha : a.memberId = id
    · have hrest : rest.map (fun m =>
          if m.memberId = id then { m with dutyCount := m.dutyCount + δ } else m)
          = rest.map (fun m => m) := by
        apply List.map_congr_left
        intro m hm
        rw [if_neg]
        intro hc
        exact h.1 (by
          rw [ha, ← hc]
          exact List.mem_map_of_mem Member.memberId hm)
      rw [List.map_cons, if_pos ha]
      rw [hrest, List.map_id']
      simp only [sumCounts, List.map_cons, List.sum_cons]
      omega
    · have hmem' : id ∈ rest.map Member.memberId := by
        rcases List.mem_cons.mp hmem with hc | hc
        · exact absurd hc.symm ha
        · exact hc
      rw [List.map_cons, if_neg ha]
      simp only [sumCounts, List.map_cons, List.sum_cons] at *
      rw [ih h.2 hmem']
      omega

theorem sumCounts_adjustCount (dir : Directory) (id : String) (δ : Int)
    (h : (dir.map Member.memberId).Nodup) :
    sumCounts (adjustCount dir id δ) = sumCounts dir + δ := by
  unfold adjustCount
  split
  · next hany =>
    apply sum_map_update dir id δ h
    obtain ⟨m, hm, hmid⟩ := List.any_eq_true.mp hany
    exact List.mem_map.mpr ⟨m, hm, by simpa using hmid⟩
  · simp [sumCounts, List.map_append, List.sum_append]

/-- A day's reselection history: fold the reselection transaction over a
list of (originalMemberId, newMemberId, newIndex, read state) tuples,
threading the directory and the stored state through. -/
def applyReselections (resels : List (String × String × Int × DutyState))
    (p : Directory × DutyState) : Directory × DutyState :=
  resels.foldl (fun q r =>
    ((updateDutyDataOnReselect r.1 r.2.1 r.2.2.1 r.2.2.2 q.1 q.2).2.1,
     (updateDutyDataOnReselect r.1 r.2.1 r.2.2.1 r.2.2.2 q.1 q.2).2.2)) p

theorem reselect_step_sum (r : String × String × Int × DutyState) (q : Directory × DutyState)
    (h : (q.1.map Member.memberId).Nodup) :
    sumCounts (updateDutyDataOnReselect r.1 r.2.1 r.2.2.1 r.2.2.2 q.1 q.2).2.1
        = sumCounts q.1 ∧
      (((updateDutyDataOnReselect r.1 r.2.1 r.2.2.1 r.2.2.2 q.1 q.2).2.1.map
        Member.memberId).Nodup) := by
  unfold updateDutyDataOnReselect
  split
  · exact ⟨rfl, h⟩
  · constructor
    · rw [sumCounts_adjustCount _ _ _ (nodup_adjustCount _ _ _ h),
        sumCounts_adjustCount _ _ _ h]
      omega
    · exact nodup_adjustCount _ _ _ (nodup_adjustCount _ _ _ h)

theorem applyReselections_sum (resels : List (String × String × Int × DutyState)) :
    ∀ (p : Directory × DutyState), (p.1.map Member.memberId).Nodup →
      sumCounts (applyReselections resels p).1 = sumCounts p.1 := by
  induction resels with
  | nil => intro p _; rfl
  | cons r rs ih =>
    intro p h
    have hs := reselect_step_sum r p h
    have hstep : applyReselections (r :: rs) p
        = applyReselections rs
          ((updateDutyDataOnReselect r.1 r.2.1 r.2.2.1 r.2.2.2 p.1 p.2).2.1,
           (updateDutyDataOnReselect r.1 r.2.1 r.2.2.1 r.2.2.2 p.1 p.2).2.2) := rfl
    rw [hstep, ih _ hs.2]
    exact hs.1

/-- Claim C6: for any day, the sum of all duty counters after the initial
assignment followed by any number of reselection transactions is exactly the
original sum plus one — the initial assignment contributes +1 to the
selected member, and every reselection contributes -1 to the replaced
assignee and +1 to the new one, a net of 0 (a failed reselection leaves the
directory untouched and also contributes 0). -/
theorem daily_count_conservation (dir : Directory) (stored : DutyState) (selected : Member)
    (rotationList : List String) (todayStr : String)
    (resels : List (String × String × Int × DutyState))
    (h : (dir.map Member.memberId).Nodup) :
    sumCounts (applyReselections resels
        (updateInitialDutyData selected rotationList todayStr dir stored)).1
      = sumCounts dir + 1 := by
  have hinit1 : (updateInitialDutyData selected rotationList todayStr dir stored).1
      = adjustCount dir selected.memberId 1 := by
    unfold updateInitialDutyData
    cases rotationList.findIdx? (fun x => x == selected.memberId) <;> rfl
  rw [applyReselections_sum resels _ (by rw [hinit1]; exact nodup_adjustCount _ _ _ h),
    hinit1, sumCounts_adjustCount _ _ _ h]

/-- Witness for `daily_count_conservation` at a concrete input: one initial
assignment to A followed by one reselection handing the duty from A to B. -/
theorem daily_count_conservation_witness :
    ((([{ memberId := "A", dutyCount := 0 },
        { memberId := "B", dutyCount := 0 }] : Directory).map Member.memberId).Nodup) ∧
    sumCounts (applyReselections
        [("A", "B", 1, { assignmentDate := some "d", rotationList := some ["A", "B"] })]
        (updateInitialDutyData { memberId := "A", dutyCount := 0 } ["A", "B"] "d"
          [{ memberId := "A", dutyCount := 0 }, { memberId := "B", dutyCount := 0 }] {})).1
      = sumCounts [{ memberId := "A", dutyCount := 0 },
          { memberId := "B", dutyCount := 0 }] + 1 :=
  ⟨by decide,
   daily_count_conservation
     [{ memberId := "A", dutyCount := 0 }, { memberId := "B", dutyCount := 0 }] {}
     { memberId := "A", dutyCount := 0 } ["A", "B"] "d"
     [("A", "B", 1, { assignmentDate := some "d", rotationList := some ["A", "B"] })]
     (by decide)⟩

/-! Claims C8 and C10. -/

/-- Signature comparison fails whenever the claimed signature differs from
the recomputed one, whether in byte length or in content. -/
theorem signatureMatches_eq_false_of_ne (hmacHex : String → String → String)
    (secret ts body sig : String)
    (h : sig ≠ "v0=" ++ hmacHex secret ("v0:" ++ ts ++ ":" ++ body)) :
    signatureMatches hmacHex secret ts body sig = false := by
  unfold signatureMatches
  split
  · rfl
  · exact beq_eq_false_iff_ne.mpr h

/-- Claim C8: the authenticator is a hard gate.  Whenever the signature,
timestamp, body or signing secret is missing, or the timestamp parses to a
number older than the 5-minute window, or the claimed signature differs
(in length or content) from the recomputed `v0=`-prefixed HMAC of
`v0:{timestamp}:{body}`, verification fails and the handler returns 403
with both stores untouched, whatever the rest of the handler would do. -/
theorem auth_hard_gate (hmacHex : String → String → String) (nowSec : Int)
    (signingSecret : Option String) (ev : SlackEvent) (dir : Directory) (stored : DutyState)
    (h : ev.signature = none ∨ ev.timestamp = none ∨ ev.body = none ∨ signingSecret = none ∨
      (∃ ts k, ev.timestamp = some ts ∧ parseIntJS ts = some k ∧ k < nowSec - 300) ∨
      (∀ sig ts body secret, ev.signature = some sig → ev.timestamp = some ts →
        ev.body = some body → signingSecret = some secret →
        sig ≠ "v0=" ++ hmacHex secret ("v0:" ++ ts ++ ":" ++ body))) :
    verifySlackRequest hmacHex nowSec signingSecret ev = false ∧
      ∀ rest, handlerAuthGate hmacHex nowSec signingSecret ev dir stored rest
        = (403, dir, stored) := by
  have hv : verifySlackRequest hmacHex nowSec signingSecret ev = false := by
    obtain ⟨sg, tm, bd⟩ := ev
    cases sg with
    | none => rfl
    | some sig =>
    cases tm with
    | none => rfl
    | some ts =>
    cases bd with
    | none => rfl
    | some body =>
    cases signingSecret with
    | none => rfl
    | some secret =>
    simp only [verifySlackRequest]
    by_cases hzero : sig = "" ∨ ts = "" ∨ body = "" ∨ secret = ""
    · simp [hzero]
    · rw [if_neg hzero]
      rcases h with h | h | h | h | h | h
      · simp at h
      · simp at h
      · simp at h
      · simp at h
      · obtain ⟨ts2, k, hts2, hp, hk⟩ := h
        simp only [Option.some.injEq] at hts2
        subst hts2
        simp [hp, hk]
      · have hne := h sig ts body secret rfl rfl rfl rfl
        cases hp : parseIntJS ts with
        | none => simp [hp, signatureMatches_eq_false_of_ne hmacHex secret ts body sig hne]
        | some k =>
          by_cases hk : k < nowSec - 300
          · simp [hp, hk]
          · simp [hp, hk, signatureMatches_eq_false_of_ne hmacHex secret ts body sig hne]
  refine ⟨hv, ?_⟩
  intro rest
  simp [handlerAuthGate, hv]

/-- Witness for `auth_hard_gate` at a concrete input (missing signature). -/
theorem auth_hard_gate_witness :
    verifySlackRequest (fun _ _ => "h") 0 none {} = false ∧
      ∀ rest, handlerAuthGate (fun _ _ => "h") 0 none {} [] {} rest = (403, [], {}) :=
  auth_hard_gate (fun _ _ => "h") 0 none {} [] {} (Or.inl rfl)

/-- Claim C10: the freshness check rejects only timestamp headers that parse
via parseInt to a number strictly below now - 300; a non-numeric timestamp
(parseInt gives NaN, and a NaN comparison is false) or a future timestamp
passes the freshness check, and such a request can be rejected only by the
subsequent signature comparison. -/
theorem freshness_only_rejects_stale (hmacHex : String → String → String) (nowSec : Int)
    (sig ts body secret : String) (hsig : sig ≠ "") (hts : ts ≠ "") (hbody : body ≠ "")
    (hsecret : secret ≠ "") :
    ((parseIntJS ts = none ∨ (∃ k, parseIntJS ts = some k ∧ nowSec < k)) →
      verifySlackRequest hmacHex nowSec (some secret)
          { signature := some sig, timestamp := some ts, body := some body }
        = signatureMatches hmacHex secret ts body sig) ∧
    (verifySlackRequest hmacHex nowSec (some secret)
          { signature := some sig, timestamp := some ts, body := some body } = false →
      signatureMatches hmacHex secret ts body sig = true →
      ∃ k, parseIntJS ts = some k ∧ k < nowSec - 300) := by
  have hzero : ¬ (sig = "" ∨ ts = "" ∨ body = "" ∨ secret = "") := by
    push_neg
    exact ⟨hsig, hts, hbody, hsecret⟩
  constructor
  · intro h
    simp only [verifySlackRequest]
    rw [if_neg hzero]
    rcases h with h | ⟨k, hp, hk⟩
    · simp [h]
    · have hnk : ¬ k < nowSec - 300 := by omega
      simp [hp, hnk]
  · intro hv hm
    simp only [verifySlackRequest] at hv
    rw [if_neg hzero] at hv
    cases hp : parseIntJS ts with
    | none =>
      rw [hp] at hv
      simp at hv
      exact absurd hm (by simp [hv])
    | some k =>
      rw [hp] at hv
      by_cases hk : k < nowSec - 300
      · exact ⟨k, rfl, hk⟩
      · simp [hk] at hv
        exact absurd hm (by simp [hv])

/-- Witness for `freshness_only_rejects_stale` at a concrete input: a
non-numeric timestamp is not rejected by the freshness check, so
verification reduces to the signature comparison. -/
theorem freshness_only_rejects_stale_witness :
    (("v0=h" : String) ≠ "" ∧ ("notanumber" : String) ≠ "" ∧ ("b" : String) ≠ "" ∧
      ("s" : String) ≠ "" ∧ parseIntJS "notanumber" = none) ∧
    verifySlackRequest (fun _ _ => "h") 1000 (some "s")
        { signature := some "v0=h", timestamp := some "notanumber", body := some "b" }
      = signatureMatches (fun _ _ => "h") "s" "notanumber" "b" "v0=h" :=
  ⟨⟨by decide, by decide, by decide, by decide, by decide⟩,
   (freshness_only_rejects_stale (fun _ _ => "h") 1000 "v0=h" "notanumber" "b" "s"
     (by decide) (by decide) (by decide) (by decide)).1 (Or.inl (by decide))⟩

/-! Claim C2. -/

theorem firstFiltered_perm (members members' : List Member) (st : Option DutyState)
    (todayStr : String) (hperm : members'.Perm members) :
    (firstFiltered members' st todayStr).Perm (firstFiltered members st todayStr) := by
  unfold firstFiltered
  cases yesterdayAssignedId st todayStr
  · exact hperm
  · exact hperm.filter _

theorem firstCandidates_perm (members members' : List Member) (st : Option DutyState)
    (todayStr : String) (hperm : members'.Perm members) :
    (firstCandidates members' st todayStr).Perm (firstCandidates members st todayStr) := by
  have hf := firstFiltered_perm members members' st todayStr hperm
  have hlen : (firstFiltered members' st todayStr).isEmpty
      = (firstFiltered members st todayStr).isEmpty := by
    by_cases h1 : firstFiltered members' st todayStr = []
    · have h2 : firstFiltered members st todayStr = [] := by
        rw [h1] at hf
        exact (hf.symm.eq_nil)
      rw [h1, h2]
    · have h2 : firstFiltered members st todayStr ≠ [] := by
        intro hc
        rw [hc] at hf
        exact h1 hf.eq_nil
      rw [List.isEmpty_eq_false.mpr h1, List.isEmpty_eq_false.mpr h2]
  unfold firstCandidates
  rw [hlen]
  split
  · exact hperm
  · exact hf

theorem nodup_firstCandidates (members : List Member) (st : Option DutyState)
    (todayStr : String) (h : (members.map Member.memberId).Nodup) :
    ((firstCandidates members st todayStr).map Member.memberId).Nodup :=
  h.sublist ((firstCandidates_sublist members st todayStr).map Member.memberId)

/-- Claim C2: `selectFirstDutyMember` returns the first candidate under the
three-key total order (dutyCount ascending, then displayOrder ascending with
missing read as `Infinity`, then memberId ascending); with pairwise distinct
dutyCounts and no prior state it returns the member with the lowest count;
on a directory with unique memberIds the result does not depend on the input
ordering of the directory; and on [{A,3},{B,1},{C,1}] with no prior state it
returns B. -/
theorem selectFirst_ranking (members members' : List Member) (st : Option DutyState)
    (todayStr : String) (m : Member) :
    (selectFirstDutyMember members st todayStr = some m →
      m ∈ firstCandidates members st todayStr ∧
        ∀ x ∈ firstCandidates members st todayStr, firstCmpLe m x = true) ∧
    (selectFirstDutyMember members none todayStr = some m →
      (∀ a ∈ members, ∀ b ∈ members, a ≠ b → a.dutyCount ≠ b.dutyCount) →
      ∀ x ∈ members, m.dutyCount ≤ x.dutyCount) ∧
    ((members.map Member.memberId).Nodup → members'.Perm members →
      selectFirstDutyMember members' st todayStr
        = selectFirstDutyMember members st todayStr) ∧
    selectFirstDutyMember
        [{ memberId := "A", dutyCount := 3 }, { memberId := "B", dutyCount := 1 },
         { memberId := "C", dutyCount := 1 }] none todayStr
      = some { memberId := "B", dutyCount := 1 } := by
  refine ⟨?_, ?_, ?_, ?_⟩
  · intro h
    unfold selectFirstDutyMember at h
    exact head?_mergeSort_min firstCmpLe firstCmpLe_trans firstCmpLe_total h
  · intro h hdist x hx
    unfold selectFirstDutyMember at h
    have hmin := head?_mergeSort_min firstCmpLe firstCmpLe_trans firstCmpLe_total h
    rw [firstCandidates_none] at hmin
    by_cases hxm : x = m
    · subst hxm
      exact le_refl _
    · have hle := hmin.2 x hx
      rw [firstCmpLe_iff] at hle
      rcases hle with hlt | ⟨heq, _⟩
      · exact le_of_lt hlt
      · exact absurd heq (hdist m hmin.1 x hx (fun hc => hxm hc.symm))
  · intro hnodup hperm
    have hcperm := firstCandidates_perm members members' st todayStr hperm
    cases h1 : selectFirstDutyMember members' st todayStr with
    | none =>
      cases h2 : selectFirstDutyMember members st todayStr with
      | none => rfl
      | some m2 =>
        have hnil : firstCandidates members' st todayStr = [] :=
          (selectFirst_eq_none_iff members' st todayStr).mp h1
        have hnil2 : firstCandidates members st todayStr = [] := by
          rw [hnil] at hcperm
          exact hcperm.symm.eq_nil
        have := (selectFirst_eq_none_iff members st todayStr).mpr hnil2
        rw [h2] at this
        exact absurd this (by simp)
    | some m1 =>
      cases h2 : selectFirstDutyMember members st todayStr with
      | none =>
        have hnil : firstCandidates members st todayStr = [] :=
          (selectFirst_eq_none_iff members st todayStr).mp h2
        have hnil2 : firstCandidates members' st todayStr = [] := by
          rw [hnil] at hcperm
          exact hcperm.eq_nil
        have := (selectFirst_eq_none_iff members' st todayStr).mpr hnil2
        rw [h1] at this
        exact absurd this (by simp)
      | some m2 =>
        have h1' := h1
        have h2' := h2
        unfold selectFirstDutyMember at h1' h2'
        have hm1 := head?_mergeSort_min firstCmpLe firstCmpLe_trans firstCmpLe_total h1'
        have hm2 := head?_mergeSort_min firstCmpLe firstCmpLe_trans firstCmpLe_total h2'
        have hm1c : m1 ∈ firstCandidates members st todayStr := hcperm.mem_iff.mp hm1.1
        have hm2c : m2 ∈ firstCandidates members' st todayStr := hcperm.mem_iff.mpr hm2.1
        have h12 : firstCmpLe m1 m2 = true := hm1.2 m2 hm2c
        have h21 : firstCmpLe m2 m1 = true := hm2.2 m1 hm1c
        have hid := firstCmpLe_antisymm m1 m2 h12 h21
        rw [eq_of_mem_of_id_eq (nodup_firstCandidates members st todayStr hnodup)
          hm1c hm2.1 hid]
  · simp [selectFirstDutyMember, firstCandidates, firstFiltered, yesterdayAssignedId,
      List.mergeSort, firstCmpLe, dispOrderEq, dispOrderLt, strLe, charListLe]

/-- Witness for `selectFirst_ranking`: the scenario directory, where the
returned member B is a least candidate under the three-key order. -/
theorem selectFirst_ranking_witness :
    selectFirstDutyMember
        [{ memberId := "A", dutyCount := 3 }, { memberId := "B", dutyCount := 1 },
         { memberId := "C", dutyCount := 1 }] none "2024-01-02"
      = some { memberId := "B", dutyCount := 1 } ∧
    ({ memberId := "B", dutyCount := 1 } : Member) ∈
        firstCandidates
          [{ memberId := "A", dutyCount := 3 }, { memberId := "B", dutyCount := 1 },
           { memberId := "C", dutyCount := 1 }] none "2024-01-02" ∧
      ∀ x ∈ firstCandidates
          [{ memberId := "A", dutyCount := 3 }, { memberId := "B", dutyCount := 1 },
           { memberId := "C", dutyCount := 1 }] none "2024-01-02",
        firstCmpLe { memberId := "B", dutyCount := 1 } x = true := by
  have hall := selectFirst_ranking
    [{ memberId := "A", dutyCount := 3 }, { memberId := "B", dutyCount := 1 },
     { memberId := "C", dutyCount := 1 }]
    [{ memberId := "A", dutyCount := 3 }, { memberId := "B", dutyCount := 1 },
     { memberId := "C", dutyCount := 1 }] none "2024-01-02"
    { memberId := "B", dutyCount := 1 }
  exact ⟨hall.2.2.2, hall.1 hall.2.2.2⟩

/-! Claim C4. -/

theorem getD_eq_get (l : List String) (k : Nat) (hk : k < l.length) :
    l.getD k "" = l.get ⟨k, hk⟩ := by
  rw [List.getD_eq_getElem?_getD, List.getElem?_eq_getElem hk]
  rfl

theorem int_mod_toNat (j n : Nat) :
    ((j : Int) + 1) % (n : Int) = (((j + 1) % n : Nat) : Int) := by
  rw [show ((j : Int) + 1) = ((j + 1 : Nat) : Int) by push_cast; ring]
  exact (Int.ofNat_mod_ofNat (j + 1) n).symm

/-- One successful fixed-rotation reselection: on a valid list-form state
with cursor `j < n`, the handler step advances the cursor to `(j+1) % n`,
assigns the member at that position of the frozen list, and keeps the date
and the list. -/
theorem fixedRotation_step (btn : String) (dir : Directory) (d : String) (l : List String)
    (j : Nat) (cam lam : Option String) (hd : d ≠ "") (hlen : 2 ≤ l.length)
    (hj : j < l.length) :
    handlerFixedRotationReselect btn dir ⟨some d, some l, some (j : Int), cam, lam⟩
      = (RotationStepOutcome.ok,
         adjustCount (adjustCount dir btn (-1))
           (l.get ⟨(j + 1) % l.length, Nat.mod_lt _ (by omega)⟩) 1,
         ⟨some d, some l, some (((j + 1) % l.length : Nat) : Int),
          some (l.get ⟨(j + 1) % l.length, Nat.mod_lt _ (by omega)⟩), none⟩) := by
  have h0 : 0 < l.length := by omega
  have hne : l.isEmpty = false := by
    cases l
    · simp at hlen
    · rfl
  have hig : ¬ ((j : Int) < 0) := by omega
  have hnlt : ¬ (l.length ≤ 1) := by omega
  have hmod : ((j : Int) + 1) % (l.length : Int) = (((j + 1) % l.length : Nat) : Int) :=
    int_mod_toNat j l.length
  have hgetD : l.getD ((((j + 1) % l.length : Nat) : Int)).toNat ""
      = l.get ⟨(j + 1) % l.length, Nat.mod_lt _ h0⟩ := by
    rw [Int.toNat_ofNat]
    exact getD_eq_get l ((j + 1) % l.length) (Nat.mod_lt _ h0)
  simp only [handlerFixedRotationReselect, hne, Bool.false_or, decide_eq_false hig,
    if_false, if_neg hnlt, hmod, hgetD, updateDutyDataOnReselect, strTruthy, listInvalid]
  simp [hd, hne]

/-- State-shape invariant of iterated fixed-rotation reselection rounds:
after `k` rounds from cursor `j`, the cursor is `(j+k) % n` and the date and
frozen list are unchanged. -/
theorem reselectRound_iterate (l : List String) (d : String) (hd : d ≠ "")
    (hlen : 2 ≤ l.length) :
    ∀ (k : Nat) (dir : Directory) (j : Nat), j < l.length → ∀ (cam lam : Option String),
      ∃ dir' cam' lam',
        (reselectRound^[k]) (dir, ⟨some d, some l, some (j : Int), cam, lam⟩)
          = (dir', ⟨some d, some l, some (((j + k) % l.length : Nat) : Int), cam', lam'⟩) := by
  intro k
  induction k with
  | zero =>
    intro dir j hj cam lam
    refine ⟨dir, cam, lam, ?_⟩
    simp only [Function.iterate_zero, id_eq]
    rw [Nat.add_zero, Nat.mod_eq_of_lt hj]
  | succ k ih =>
    intro dir j hj cam lam
    rw [Function.iterate_succ_apply]
    have hstep := fixedRotation_step (cam.getD "") dir d l j cam lam hd hlen hj
    have hround : reselectRound (dir, ⟨some d, some l, some (j : Int), cam, lam⟩)
        = (adjustCount (adjustCount dir (cam.getD "") (-1))
            (l.get ⟨(j + 1) % l.length, Nat.mod_lt _ (by omega)⟩) 1,
           ⟨some d, some l, some (((j + 1) % l.length : Nat) : Int),
            some (l.get ⟨(j + 1) % l.length, Nat.mod_lt _ (by omega)⟩), none⟩) := by
      unfold reselectRound
      rw [hstep]
    rw [hround]
    obtain ⟨dir', cam', lam', heq⟩ :=
      ih (adjustCount (adjustCount dir (cam.getD "") (-1))
          (l.get ⟨(j + 1) % l.length, Nat.mod_lt _ (by omega)⟩) 1)
        ((j + 1) % l.length) (Nat.mod_lt _ (by omega))
        (some (l.get ⟨(j + 1) % l.length, Nat.mod_lt _ (by omega)⟩)) none
    refine ⟨dir', cam', lam', ?_⟩
    have hidx : ((j + 1) % l.length + k) % l.length = (j + (k + 1)) % l.length := by
      rw [Nat.mod_add_mod]
      congr 1
      omega
    rw [heq, hidx]

/-- Claim C4: on a frozen rotation list of length `n ≥ 2` with a valid
cursor `j`, the fixed-rotation reselection step selects cursor `(j+1) % n`
and assigns `rotationList[(j+1) % n]`; applying the round `n` times returns
the cursor to its starting position; and on list [A,B,C] with cursor 2 the
step returns A at cursor 0 (wraparound). -/
theorem fixedRotation_cursor_cycle (l : List String) (d : String) (dir : Directory)
    (btn : String) (j : Nat) (cam lam : Option String)
    (hd : d ≠ "") (hlen : 2 ≤ l.length) (hj : j < l.length) :
    (handlerFixedRotationReselect btn dir ⟨some d, some l, some (j : Int), cam, lam⟩
      = (RotationStepOutcome.ok,
         adjustCount (adjustCount dir btn (-1))
           (l.get ⟨(j + 1) % l.length, Nat.mod_lt _ (by omega)⟩) 1,
         ⟨some d, some l, some (((j + 1) % l.length : Nat) : Int),
          some (l.get ⟨(j + 1) % l.length, Nat.mod_lt _ (by omega)⟩), none⟩)) ∧
    ((reselectRound^[l.length])
        (dir, ⟨some d, some l, some (j : Int), cam, lam⟩)).2.currentListIndex
      = some (j : Int) ∧
    (handlerFixedRotationReselect "C" []
        ⟨some "2024-01-02", some ["A", "B", "C"], some 2, some "C", none⟩).2.2.currentListIndex
      = some 0 ∧
    (handlerFixedRotationReselect "C" []
        ⟨some "2024-01-02", some ["A", "B", "C"],
         some 2, some "C", none⟩).2.2.currentAssignedMemberId
      = some "A" := by
  refine ⟨fixedRotation_step btn dir d l j cam lam hd hlen hj, ?_, by decide, by decide⟩
  obtain ⟨dir', cam', lam', heq⟩ :=
    reselectRound_iterate l d hd hlen l.length dir j hj cam lam
  rw [heq]
  have hidx : (j + l.length) % l.length = j := by
    rw [Nat.add_mod_right, Nat.mod_eq_of_lt hj]
  simp [hidx]

/-- Witness for `fixedRotation_cursor_cycle` at a concrete input: three
rounds on the frozen list [A,B,C] bring the cursor back to 2. -/
theorem fixedRotation_cursor_cycle_witness :
    (("2024-01-02" : String) ≠ "" ∧ 2 ≤ (["A", "B", "C"] : List String).length ∧
      2 < (["A", "B", "C"] : List String).length) ∧
    ((reselectRound^[3])
        ([], ⟨some "2024-01-02", some ["A", "B", "C"],
          some ((2 : Nat) : Int), some "C", none⟩)).2.currentListIndex
      = some ((2 : Nat) : Int) :=
  ⟨⟨by decide, by decide, by decide⟩,
   (fixedRotation_cursor_cycle ["A", "B", "C"] "2024-01-02" [] "C" 2 (some "C") none
     (by decide) (by decide) (by decide)).2.1⟩

/-! Claim C5. -/

theorem idSorted_perm (members : List Member) : (idSorted members).Perm members :=
  List.mergeSort_perm members idCmpLe

theorem idSorted_length (members : List Member) :
    (idSorted members).length = members.length :=
  (idSorted_perm members).length_eq

theorem idSorted_nodup (members : List Member)
    (hnd : (members.map Member.memberId).Nodup) :
    ((idSorted members).map Member.memberId).Nodup :=
  (((idSorted_perm members).map Member.memberId).nodup_iff).mpr hnd

/-- With pairwise distinct ids, `findIndex` of the id at sorted position `j`
is `j` itself. -/
theorem findIdx_of_sorted_pos (s : List Member) (hnd : (s.map Member.memberId).Nodup)
    (j : Nat) (hj : j < s.length) :
    s.findIdx? (fun m => m.memberId == (s.get ⟨j, hj⟩).memberId) = some j := by
  rw [List.findIdx?_eq_some_iff_getElem]
  refine ⟨hj, by simp, ?_⟩
  intro k hk
  have hkj : k ≠ j := Nat.ne_of_lt hk
  have hklt : k < s.length := Nat.lt_trans hk hj
  have hne : (s.get ⟨k, hklt⟩).memberId ≠ (s.get ⟨j, hj⟩).memberId := by
    intro hc
    apply hkj
    have hmk : (s.map Member.memberId).get ⟨k, by simpa using hklt⟩
        = (s.map Member.memberId).get ⟨j, by simpa using hj⟩ := by
      simpa using hc
    exact congrArg Fin.val ((hnd.get_inj_iff).mp hmk)
  simpa using hne

/-- The identifier-rotation step at sorted position `j` returns the member
at sorted position `(j+1) % n`. -/
theorem selectNextById_at (members : List Member)
    (hnd : (members.map Member.memberId).Nodup) (j : Nat)
    (hj : j < (idSorted members).length) :
    selectNextMemberByIdRotation members ((idSorted members).get ⟨j, hj⟩).memberId
      = some ((idSorted members).get
          ⟨(j + 1) % (idSorted members).length,
           Nat.mod_lt _ (Nat.lt_of_le_of_lt (Nat.zero_le j) hj)⟩) := by
  cases members with
  | nil => simp [idSorted] at hj
  | cons a rest =>
    cases rest with
    | nil =>
      have hs : idSorted [a] = [a] := by simp [idSorted]
      have hj1 : j < 1 := by
        have := hj
        rw [hs] at this
        simpa using this
      have hj0 : j = 0 := by omega
      subst hj0
      simp [selectNextMemberByIdRotation, hs]
    | cons b rest2 =>
      have hnds : ((idSorted (a :: b :: rest2)).map Member.memberId).Nodup :=
        idSorted_nodup _ hnd
      show (match (idSorted (a :: b :: rest2)).findIdx?
          (fun m => m.memberId == ((idSorted (a :: b :: rest2)).get ⟨j, hj⟩).memberId) with
        | none => (idSorted (a :: b :: rest2)).head?
        | some currentIndex =>
          (idSorted (a :: b :: rest2))[(currentIndex + 1) % (idSorted (a :: b :: rest2)).length]?)
        = _
      rw [findIdx_of_sorted_pos _ hnds j hj]
      exact List.getElem?_eq_getElem _

/-- One total identifier-rotation hop at sorted position `j`. -/
theorem selStep_at (members : List Member) (hnd : (members.map Member.memberId).Nodup)
    (j : Nat) (hj : j < (idSorted members).length) :
    selStep members ((idSorted members).get ⟨j, hj⟩)
      = (idSorted members).get
          ⟨(j + 1) % (idSorted members).length,
           Nat.mod_lt _ (Nat.lt_of_le_of_lt (Nat.zero_le j) hj)⟩ := by
  unfold selStep
  rw [selectNextById_at members hnd j hj]
  rfl

/-- Iterated identifier-rotation hops land at sorted position `(j+k) % n`. -/
theorem selStep_iterate (members : List Member)
    (hnd : (members.map Member.memberId).Nodup) (j : Nat)
    (hj : j < (idSorted members).length) :
    ∀ k, (selStep members)^[k] ((idSorted members).get ⟨j, hj⟩)
      = (idSorted members).get
          ⟨(j + k) % (idSorted members).length,
           Nat.mod_lt _ (Nat.lt_of_le_of_lt (Nat.zero_le j) hj)⟩ := by
  have hpos : 0 < (idSorted members).length := Nat.lt_of_le_of_lt (Nat.zero_le j) hj
  intro k
  induction k with
  | zero =>
    simp only [Function.iterate_zero, id_eq]
    congr 1
    rw [Nat.add_zero]
    exact (Fin.ext (Nat.mod_eq_of_lt hj)).symm
  | succ k ih =>
    rw [Function.iterate_succ_apply', ih,
      selStep_at members hnd ((j + k) % (idSorted members).length) (Nat.mod_lt _ hpos)]
    congr 1
    apply Fin.ext
    show ((j + k) % (idSorted members).length + 1) % (idSorted members).length
      = (j + (k + 1)) % (idSorted members).length
    rw [Nat.mod_add_mod, Nat.add_assoc]

/-- Claim C5: the identifier-rotation SelectNext sorts the live directory by
memberId and returns the member after the triggering member modulo `n`
(stated at every sorted position); when the triggering member is absent from
the directory it returns the first member in sorted order; and starting from
any member, `n` hops visit all `n` members exactly once (the visit sequence
is a permutation of the directory) before repeating (`n` hops return to the
start). -/
theorem idRotation_cycle (members : List Member) (currentMemberId : String) (m0 : Member)
    (hnd : (members.map Member.memberId).Nodup) :
    (∀ (j : Nat) (hj : j < (idSorted members).length),
      selectNextMemberByIdRotation members ((idSorted members).get ⟨j, hj⟩).memberId
        = some ((idSorted members).get
            ⟨(j + 1) % (idSorted members).length,
             Nat.mod_lt _ (Nat.lt_of_le_of_lt (Nat.zero_le j) hj)⟩)) ∧
    (members ≠ [] → (∀ m ∈ members, m.memberId ≠ currentMemberId) →
      selectNextMemberByIdRotation members currentMemberId = (idSorted members).head?) ∧
    (m0 ∈ members →
      ((List.range members.length).map (fun k => (selStep members)^[k] m0)).Perm members ∧
        (selStep members)^[members.length] m0 = m0) := by
  refine ⟨fun j hj => selectNextById_at members hnd j hj, ?_, ?_⟩
  · intro hne habs
    cases members with
    | nil => exact absurd rfl hne
    | cons a rest =>
      cases rest with
      | nil =>
        have hs : idSorted [a] = [a] := by simp [idSorted]
        simp [selectNextMemberByIdRotation, hs]
      | cons b rest2 =>
        have hfind : (idSorted (a :: b :: rest2)).findIdx?
            (fun m => m.memberId == currentMemberId) = none := by
          rw [List.findIdx?_eq_none_iff]
          intro x hx
          have hxm : x ∈ (a :: b :: rest2) := (idSorted_perm _).mem_iff.mp hx
          simpa using habs x hxm
        show (match (idSorted (a :: b :: rest2)).findIdx?
            (fun m => m.memberId == currentMemberId) with
          | none => (idSorted (a :: b :: rest2)).head?
          | some currentIndex =>
            (idSorted (a :: b :: rest2))[(currentIndex + 1) %
              (idSorted (a :: b :: rest2)).length]?)
          = (idSorted (a :: b :: rest2)).head?
        rw [hfind]
  · intro hm0
    have hm0s : m0 ∈ idSorted members := (idSorted_perm members).mem_iff.mpr hm0
    obtain ⟨j0, hj0, hget⟩ := List.mem_iff_getElem.mp hm0s
    have hpos : 0 < (idSorted members).length := Nat.lt_of_le_of_lt (Nat.zero_le j0) hj0
    have hgete : (idSorted members).get ⟨j0, hj0⟩ = m0 := hget
    constructor
    · have hvisit : (List.range members.length).map (fun k => (selStep members)^[k] m0)
          = (idSorted members).rotate j0 := by
        apply List.ext_getElem
        · simp [List.length_rotate, idSorted_length]
        · intro i h1 h2
          have hi : i < members.length := by simpa using h1
          have his : i < (idSorted members).length := by rw [idSorted_length]; exact hi
          rw [List.getElem_map, List.getElem_range]
          rw [← hgete, selStep_iterate members hnd j0 hj0 i]
          rw [List.getElem_rotate]
          congr 1
          rw [Nat.add_comm i j0]
      rw [hvisit]
      exact ((idSorted members).rotate_perm j0).trans (idSorted_perm members)
    · rw [← hgete, show members.length = (idSorted members).length from
        (idSorted_length members).symm,
        selStep_iterate members hnd j0 hj0 (idSorted members).length]
      congr 1
      apply Fin.ext
      show (j0 + (idSorted members).length) % (idSorted members).length = j0
      rw [Nat.add_mod_right, Nat.mod_eq_of_lt hj0]


/-- Witness members for claim C5. -/
def c5ms : List Member :=
  [{ memberId := "A", dutyCount := 3 }, { memberId := "B", dutyCount := 1 },
   { memberId := "C", dutyCount := 1 }]

/-- Witness for `idRotation_cycle` at a concrete input: three hops from B
visit every member once and return to B. -/
theorem idRotation_cycle_witness :
    ((c5ms.map Member.memberId).Nodup ∧
      ({ memberId := "B", dutyCount := 1 } : Member) ∈ c5ms) ∧
    (((List.range c5ms.length).map
        (fun k => (selStep c5ms)^[k] { memberId := "B", dutyCount := 1 })).Perm c5ms ∧
      (selStep c5ms)^[c5ms.length] { memberId := "B", dutyCount := 1 }
        = { memberId := "B", dutyCount := 1 }) :=
  ⟨⟨by decide, by decide⟩,
   (idRotation_cycle c5ms "x" { memberId := "B", dutyCount := 1 } (by decide)).2.2
     (by decide)⟩

end DailyDuty
